import Mathlib

/-!
# Verification of the rusty-os physical-memory and translation core

Shallow embedding of the memory-management core of the `rusty-os` kernel:
the frame allocator and MMU code of `src/page.rs` and the byte-granularity
heap allocator of `src/kmem.rs`.

Modelling conventions:
* `usize`/`u64`/`i64` machine words are modelled as `Nat`, with an explicit
  `% 2 ^ 64` wherever the source arithmetic can wrap.  The `i64` page-table
  entries are modelled through their two's-complement bit pattern (a `Nat`
  below `2 ^ 64`); every entry value the code writes is non-negative, so the
  bit patterns coincide with the numeric values.
* Physical memory is a total function from byte addresses to 64-bit words:
  `mem a` is the 8-byte word starting at byte address `a`.  The code reads
  and writes page-table entries through raw pointers; the model performs the
  same address computations on `Nat`.
* Fatal `assert!` failures (and Rust's own bounds-check / `unwrap` panics)
  are modelled as `Except.error` with a message describing the assertion.
* The frame allocator's descriptor bytes (`struct Page` of `page.rs`) are a
  `List Page` holding the bytes that start at `HEAP_START`.
-/

/-- `PAGE_ORDER` of page.rs. -/
def PAGE_ORDER : Nat := 12

/-- `PAGE_SIZE = 1 << PAGE_ORDER` of page.rs. -/
def PAGE_SIZE : Nat := 1 <<< PAGE_ORDER

/-- `align_val` of page.rs: `let o = (1 << order) - 1; (val + o) & !o`,
on 64-bit `usize` (so `!o = 2^64 - 1 - o` and the sum wraps mod `2^64`). -/
def align_val (val order : Nat) : Nat :=
  ((val + ((1 <<< order) - 1)) % 2 ^ 64) &&& (2 ^ 64 - 1 - ((1 <<< order) - 1))

/-- Frame descriptor: `struct Page { flags: u8 }` of page.rs. -/
structure Page where
  flags : Nat
deriving DecidableEq, Repr

namespace Page

/-- `PageBits::Taken = 1 << 0`. -/
def takenBit : Nat := 1

/-- `PageBits::Last = 1 << 1`. -/
def lastBit : Nat := 2

/-- `Page::is_taken`: `flags & Taken == 1`. -/
def is_taken (p : Page) : Bool := p.flags &&& takenBit == 1

/-- `Page::is_last`: `flags & Last != 0`. -/
def is_last (p : Page) : Bool := p.flags &&& lastBit != 0

/-- `Page::is_free`: `!is_taken`. -/
def is_free (p : Page) : Bool := !p.is_taken

/-- `Page::clear`: `flags = Empty`. -/
def clear (_ : Page) : Page := ⟨0⟩

/-- `Page::set_flag`: `flags |= flag`. -/
def set_flag (p : Page) (flag : Nat) : Page := ⟨p.flags ||| flag⟩

end Page

/-- State of the frame allocator of page.rs: the linker-supplied heap region
`[heap_start, heap_start + heap_size)`, the page-aligned `ALLOC_START`
computed by `init`, and the descriptor bytes stored from `heap_start` on
(`pages[i]` is the byte at address `heap_start + i`; `init` clears one
descriptor per frame, but `dealloc` can walk onto bytes past the descriptor
table, so the list may model more bytes than `num_pages`). -/
structure PageState where
  heap_start : Nat
  heap_size : Nat
  alloc_start : Nat
  pages : List Page
deriving DecidableEq, Repr

namespace PageState

/-- `num_pages = HEAP_SIZE / PAGE_SIZE`, recomputed by `alloc`/`dealloc`. -/
def numPages (st : PageState) : Nat := st.heap_size / PAGE_SIZE

/-- The check performed for one candidate start index `i` of `alloc`:
the descriptor at `i` is free and no descriptor in `[i, i+n)` is taken
(the code tests `is_free(i)` and then scans `j in i..(i+pages)`, which
re-checks `i`; the conjunction is equivalent). -/
def runIsFree (st : PageState) (i n : Nat) : Bool :=
  (List.range' i n).all fun j => (st.pages.getD j ⟨0⟩).is_free

/-- The scan of `alloc` (page.rs:96): `for i in 0..(num_pages - pages)`,
returning the first index whose run is free.  Note the exclusive upper
bound: index `num_pages - pages` itself is never tried. -/
def allocFind (st : PageState) (n : Nat) : Option Nat :=
  (List.range (st.numPages - n)).find? fun i => st.runIsFree i n

/-- The marking of a found run (page.rs:117-123): `Taken` on `[i, i+n-1)`,
then `Taken` and `Last` on `i + n - 1`. -/
def markTaken (pages : List Page) (i n : Nat) : List Page :=
  let p1 := (List.range' i (n - 1)).foldl
    (fun ps k => ps.set k ((ps.getD k ⟨0⟩).set_flag Page.takenBit)) pages
  p1.set (i + n - 1)
    (((p1.getD (i + n - 1) ⟨0⟩).set_flag Page.takenBit).set_flag Page.lastBit)

/-- Body of `alloc` after the `assert!(pages > 0)`: scan, mark, and return
`ALLOC_START + PAGE_SIZE * i`, or a null pointer (`none`) if no run was
found. -/
def allocCore (st : PageState) (n : Nat) : Option Nat × PageState :=
  match st.allocFind n with
  | some i => (some (st.alloc_start + PAGE_SIZE * i), { st with pages := markTaken st.pages i n })
  | none => (none, st)

/-- `alloc` of page.rs: `assert!(pages > 0)` is fatal, then `allocCore`. -/
def alloc (st : PageState) (n : Nat) : Except String (Option Nat × PageState) :=
  if n = 0 then .error "assertion failed: pages > 0"
  else .ok (st.allocCore n)

end PageState

/-- The forward-clearing walk of `dealloc` (page.rs:154-165), starting at
the descriptor for the freed pointer: clear descriptors while they are
taken and not last; then `assert!(is_last)` (a free descriptor reached
first is a fatal double-free), and clear the last one.  An empty list means
the walk ran off the modeled memory bytes. -/
def deallocWalk : List Page → Except String (List Page)
  | [] => .error "descriptor walk left the modeled region"
  | f :: rest =>
    if f.is_taken && !f.is_last then
      (deallocWalk rest).map fun ds => (⟨0⟩ : Page) :: ds
    else if f.is_last then .ok ((⟨0⟩ : Page) :: rest)
    else .error "Possible double-free encountered"

namespace PageState

/-- The descriptor index `dealloc` computes (page.rs:145):
`(ptr - ALLOC_START) / PAGE_SIZE` with wrapping `usize` subtraction. -/
def deallocIdx (st : PageState) (ptr : Nat) : Nat :=
  ((ptr + 2 ^ 64 - st.alloc_start) % 2 ^ 64) / PAGE_SIZE

/-- `page_struct_addr = HEAP_START + deallocIdx` (page.rs:145), wrapping. -/
def deallocPSA (st : PageState) (ptr : Nat) : Nat :=
  (st.heap_start + st.deallocIdx ptr) % 2 ^ 64

/-- `dealloc` of page.rs: fatal on a null pointer; fatal when
`page_struct_addr` is outside `[HEAP_START, HEAP_START + HEAP_SIZE)`;
then the forward-clearing walk from the computed descriptor index. -/
def dealloc (st : PageState) (ptr : Nat) : Except String PageState :=
  if ptr = 0 then .error "assertion failed: ptr is null"
  else if st.heap_start ≤ st.deallocPSA ptr ∧
      st.deallocPSA ptr < st.heap_start + st.heap_size then
    (deallocWalk (st.pages.drop (st.deallocIdx ptr))).map fun ds =>
      { st with pages := st.pages.take (st.deallocIdx ptr) ++ ds }
  else .error "assertion failed: page_struct_addr outside heap range"

end PageState

/-! ## The MMU machine: physical memory plus the frame allocator

`map`/`unmap` of page.rs manipulate page tables stored in physical memory
through raw pointers, and obtain/release table frames through
`zalloc`/`dealloc`.  A `Machine` packs the frame-allocator state with the
memory contents; page tables (the root included) are designated by their
byte address. -/

structure Machine where
  ps : PageState
  mem : Nat → Nat

/-- Read the 8-byte word at byte address `a`. -/
def rdWord (m : Machine) (a : Nat) : Nat := m.mem a

/-- Write the 8-byte word at byte address `a`. -/
def wrWord (m : Machine) (a v : Nat) : Machine :=
  { m with mem := fun x => if x = a then v else m.mem x }

/-- Zero the byte range `[a, a + len)`; `zalloc` does this in 8-byte
strides covering exactly this range. -/
def zeroRange (mem : Nat → Nat) (a len : Nat) : Nat → Nat :=
  fun x => if a ≤ x ∧ x < a + len then 0 else mem x

/-- `zalloc(1)` of page.rs as used by `map`: allocate one frame
(`assert!(pages > 0)` trivially passes for 1, so `allocCore` is used
directly) and zero its `PAGE_SIZE` bytes when the allocation succeeded. -/
def zallocFrame (m : Machine) : Option Nat × Machine :=
  match m.ps.allocCore 1 with
  | (some a, ps') => (some a, { ps := ps', mem := zeroRange m.mem a PAGE_SIZE })
  | (none, ps') => (none, { m with ps := ps' })

/-- `Entry::is_valid`: `entry & Valid != 0`. -/
def entryIsValid (e : Nat) : Bool := e &&& 1 != 0

/-- `Entry::is_leaf`: `entry & 0xe != 0`. -/
def entryIsLeaf (e : Nat) : Bool := e &&& 0xe != 0

/-- `Entry::is_branch`: `!is_leaf`. -/
def entryIsBranch (e : Nat) : Bool := !entryIsLeaf e

/-- The branch-following address computation of page.rs:352 and 375/381:
`(entry & !0x3ff) << 2`, on 64-bit words (the left shift wraps). -/
def branchTarget (e : Nat) : Nat := ((e &&& (2 ^ 64 - 0x400)) <<< 2) % 2 ^ 64

/-- The `vpn` array of `map` (page.rs:318-322), exactly as the source
computes it: `[vaddr >> 12, vaddr >> 21, vaddr >> 30]`.  The shifts are
*not* masked to 9 bits. -/
def mapVPN (vaddr : Nat) : List Nat :=
  [vaddr >>> 12, vaddr >>> 21, vaddr >>> 30]

/-- The leaf entry written by `map` (page.rs:358-362):
`(ppn[2] << 28) | (ppn[1] << 19) | (ppn[0] << 10) | bits | Valid`, with
`ppn = [paddr >> 12, paddr >> 21, paddr >> 30]` unmasked, shifts performed
on `usize` (wrapping) and the result reinterpreted as an `i64` word. -/
def leafEntry (paddr bits : Nat) : Nat :=
  (((paddr >>> 30) <<< 28) % 2 ^ 64) |||
    (((paddr >>> 21) <<< 19) % 2 ^ 64) |||
    (((paddr >>> 12) <<< 10) % 2 ^ 64) ||| bits ||| 1

/-- One iteration of the walk loop of `map` (page.rs:336-354): if the
current entry (at address `v`) is invalid, allocate a zeroed frame and
store it as a valid branch (`(page_addr as i64 >> 2) | Valid`; a null
`zalloc` result is not checked and becomes entry value 1); then follow
`(entry & !0x3ff) << 2` and index it with the next VPN digit `d`
(`entry.add(vpn[i])`, scaled by the 8-byte entry size).  The
`.as_mut().unwrap()` on the resulting pointer panics when it is null. -/
def mapStep (m : Machine) (v d : Nat) : Except String (Machine × Nat) :=
  let (m', e) :=
    if entryIsValid (rdWord m v) then (m, rdWord m v)
    else
      let (pa, m1) := zallocFrame m
      let e := ((pa.getD 0) >>> 2) ||| 1
      (wrWord m1 v e, e)
  let next := (branchTarget e + 8 * d) % 2 ^ 64
  if next = 0 then .error "attempted to unwrap a null entry pointer"
  else .ok (m', next)

/-- The walk loop of `map` over the level list `(level..2).rev()`. -/
def mapWalk (m : Machine) (v : Nat) (vpn : List Nat) : List Nat → Except String (Machine × Nat)
  | [] => .ok (m, v)
  | i :: rest => do
    let (m', v') ← mapStep m v (vpn.getD i 0)
    mapWalk m' v' vpn rest

/-- The iteration order `(level..2).rev()` of page.rs:336. -/
def levelList (level : Nat) : List Nat := (List.range' level (2 - level)).reverse

/-- `map` of page.rs: `assert!(bits & 0xe != 0)` is fatal; the root access
`root.entries[vpn[2]]` is a bounds-checked array index (Rust panics when
`vpn[2] ≥ 512`); then the walk down to `level` and the leaf write. -/
def mapOp (m : Machine) (rootAddr vaddr paddr bits level : Nat) : Except String Machine :=
  if bits &&& 0xe = 0 then .error "assertion failed: bits & 0xe != 0"
  else
    let vpn := mapVPN vaddr
    if vpn.getD 2 0 ≥ 512 then .error "index out of bounds: root.entries"
    else do
      let (m', v) ← mapWalk m (rootAddr + 8 * vpn.getD 2 0) vpn (levelList level)
      pure (wrWord m' v (leafEntry paddr bits))

/-- `dealloc` lifted to the machine. -/
def deallocM (m : Machine) (ptr : Nat) : Except String Machine :=
  (m.ps.dealloc ptr).map fun ps' => { m with ps := ps' }

/-- The inner loop of `unmap` (page.rs:377-386): walk the 512 entries of
the level-1 table at `base1`, freeing the level-0 table of every valid
branch entry. -/
def unmapInner (m : Machine) (base1 : Nat) : Except String Machine :=
  (List.range 512).foldlM
    (fun mm lv1 =>
      let e1 := rdWord mm (base1 + 8 * lv1)
      if entryIsValid e1 && entryIsBranch e1 then
        deallocM mm (branchTarget e1)
      else pure mm)
    m

/-- One level-2 iteration of `unmap` (page.rs:370-389): for a valid branch
root entry, free the level-0 tables under it, then the level-1 table.
The root entry itself is *not* cleared. -/
def unmapStep (rootAddr : Nat) (m : Machine) (lv2 : Nat) : Except String Machine :=
  let e2 := rdWord m (rootAddr + 8 * lv2)
  if entryIsValid e2 && entryIsBranch e2 then do
    let m' ← unmapInner m (branchTarget e2)
    deallocM m' (branchTarget e2)
  else pure m

/-- `unmap` of page.rs: iterate the 512 root entries. -/
def unmapOp (m : Machine) (rootAddr : Nat) : Except String Machine :=
  (List.range 512).foldlM (unmapStep rootAddr) m

/-- Modelled from the spec: `virt_to_phys(root, vaddr)` is part of the
Translation Subsystem's contract (spec §4.3, §6, §8) but its code is not
under src/ — only `map`/`unmap` are.  Per the spec it is a read-only walk
that "mirrors `map`'s descent using the address's VPN digits", the digits
being the "three 9-bit page-table indices" of §4.3 (so each digit is
masked to 9 bits, `(vaddr >> (12 + 9*i)) & 0x1ff`); it returns "the
resolved physical address plus the unmapped low bits", or "unmapped"
(`none`) "if any level-2/level-1 branch is invalid"; when "a leaf is
encountered at a non-terminal level (superpage) the remaining low-order
bits of `vaddr` are preserved unshifted" — at level `i` the low
`12 + 9*i` bits of `vaddr` are kept and the entry's physical page number
above them is `(entry >> (10 + 9*i)) << (12 + 9*i)`.  A valid non-leaf
entry at level 0 resolves nothing and is also unmapped. -/
def vtpLevel (m : Machine) (vaddr : Nat) : Nat → Nat → Option Nat
  | base, i =>
    let d := (vaddr >>> (12 + 9 * i)) &&& 0x1ff
    let e := rdWord m (base + 8 * d)
    if entryIsValid e = false then none
    else if entryIsLeaf e then
      some (((e >>> (10 + 9 * i)) <<< (12 + 9 * i)) + vaddr % 2 ^ (12 + 9 * i))
    else
      match i with
      | 0 => none
      | i' + 1 => vtpLevel m vaddr (branchTarget e) i'

/-- Modelled from the spec: the full `virt_to_phys` walk starts at the
root table, level 2. -/
def virtToPhys (m : Machine) (rootAddr vaddr : Nat) : Option Nat :=
  vtpLevel m vaddr rootAddr 2

/-! ## The heap allocator of kmem.rs

The heap region is `KMEM_ALLOC = 64` frames obtained from the frame
allocator at `init`; all addresses below are byte offsets from
`KMEM_HEAD`.  The `AllocList` headers form a chain in memory: the first
header sits at offset 0 and the header after a block of size `s` at offset
`off` sits at offset `off + s`.  A heap state is the list of headers in
chain (walk) order; offsets are recovered by accumulating the stored
sizes, exactly as the code's pointer arithmetic does. -/

/-- `KMEM_ALLOC` after `kmem::init`. -/
def KMEM_ALLOC : Nat := 64

/-- The byte offset of the tail pointer `KMEM_HEAD + KMEM_ALLOC * PAGE_SIZE`. -/
def heapTail : Nat := KMEM_ALLOC * PAGE_SIZE

/-- `AllocListFlags::Taken = 1 << 63`. -/
def TAKEN_FLAG : Nat := 1 <<< 63

/-- `struct AllocList { flags_and_size: usize }` of kmem.rs. -/
structure AllocList where
  flags_and_size : Nat
deriving DecidableEq, Repr

namespace AllocList

/-- `AllocList::is_taken`: `flags_and_size & Taken != 0`. -/
def is_taken (b : AllocList) : Bool := b.flags_and_size &&& TAKEN_FLAG != 0

/-- `AllocList::is_free`: `!is_taken`. -/
def is_free (b : AllocList) : Bool := !b.is_taken

/-- `AllocList::set_taken`: `flags_and_size |= Taken`. -/
def set_taken (b : AllocList) : AllocList := ⟨b.flags_and_size ||| TAKEN_FLAG⟩

/-- `AllocList::set_free`: `flags_and_size &= !Taken` (`!Taken = 2^63 - 1`). -/
def set_free (b : AllocList) : AllocList := ⟨b.flags_and_size &&& (TAKEN_FLAG - 1)⟩

/-- `AllocList::set_size`: store `sz & !Taken`, preserving the taken flag. -/
def set_size (b : AllocList) (sz : Nat) : AllocList :=
  if b.is_taken then ⟨(sz &&& (TAKEN_FLAG - 1)) ||| TAKEN_FLAG⟩
  else ⟨sz &&& (TAKEN_FLAG - 1)⟩

/-- `AllocList::get_size`: `flags_and_size & !Taken`. -/
def get_size (b : AllocList) : Nat := b.flags_and_size &&& (TAKEN_FLAG - 1)

end AllocList

/-- The heap as `kmem::init` leaves it (kmem.rs:76-86): one header at
offset 0, freed and sized to the whole `KMEM_ALLOC * PAGE_SIZE` region. -/
def heapInit : List AllocList :=
  [((⟨0⟩ : AllocList).set_free).set_size (KMEM_ALLOC * PAGE_SIZE)]

/-- The scan loop of `kmalloc` (kmem.rs:98-120).  `size` is the adjusted
request `align_val(sz, 3) + 8`, `off` the current head offset, and the
list the headers from the current head on.  The first free header whose
stored size strictly exceeds `size` is taken: when the remainder is larger
than one header, the block is split (the new free header is written at
offset `off + size`, which is where the chain places it; its previous
memory contents are irrelevant since `set_free` and `set_size` overwrite
both fields); otherwise the whole chunk is kept.  The returned pointer is
`head.add(1)`, i.e. offset `off + 8`. -/
def kmallocGo (size : Nat) : Nat → List AllocList → Option (List AllocList × Nat)
  | _, [] => none
  | off, b :: rest =>
    if off < heapTail then
      if b.is_free && decide (size < b.get_size) then
        -- `chunk = get_size`, `rem = chunk - size`; `set_taken` precedes the
        -- size updates, so `chunk` is still `b.get_size` at both writes
        if b.get_size - size > 8 then
          some ((b.set_taken.set_size size) ::
            ((⟨0⟩ : AllocList).set_free.set_size (b.get_size - size)) :: rest, off + 8)
        else
          some ((b.set_taken.set_size b.get_size) :: rest, off + 8)
      else (kmallocGo size (off + b.get_size) rest).map fun r => (b :: r.1, r.2)
    else none

/-- `kmalloc` of kmem.rs: adjust the size and scan from the head (offset
0); `none` is the null return. -/
def kmalloc (sz : Nat) : List AllocList → Option (List AllocList × Nat) :=
  kmallocGo (align_val sz 3 + 8) 0

/-- `kzmalloc` of kmem.rs: `kmalloc(align_val(sz, 3))` followed by a
zero-fill of the payload bytes, which touches no header. -/
def kzmalloc (sz : Nat) : List AllocList → Option (List AllocList × Nat) :=
  kmalloc (align_val sz 3)

/-- The coalescing pass of kmem.rs:142-167.  At each head: a zero stored
size or a next pointer at or past the tail stops the pass (corruption
guards); two adjacent free blocks are merged (and the head then advances
by the merged size, i.e. to the successor of the absorbed block);
otherwise the head advances to the next header.  A head below the tail
with no further modeled header cannot arise under the tiling invariant
and leaves the rest unchanged. -/
def coalesceGo : Nat → List AllocList → List AllocList
  | _, [] => []
  | _, [b] =>
    -- a head below the tail with no further modeled header cannot arise
    -- under the tiling invariant; every loop branch leaves it unchanged
    [b]
  | off, b :: nb :: rest' =>
    if heapTail ≤ off then b :: nb :: rest'
    else if b.get_size = 0 then b :: nb :: rest'
    else if heapTail ≤ off + b.get_size then b :: nb :: rest'
    else if b.is_free && nb.is_free then
      let merged := b.set_size (b.get_size + nb.get_size)
      merged :: coalesceGo (off + merged.get_size) rest'
    else
      b :: coalesceGo (off + b.get_size) (nb :: rest')

/-- `coalesce` of kmem.rs, from the heap head. -/
def coalesce (hs : List AllocList) : List AllocList := coalesceGo 0 hs

/-- The header update of `kfree` (kmem.rs:173-176): locate the header at
offset `p = ptr - 8` in the chain and clear its taken flag if set. -/
def kfreeGo : Nat → Nat → List AllocList → List AllocList
  | _, _, [] => []
  | p, off, b :: rest =>
    if off = p then (if b.is_taken then b.set_free else b) :: rest
    else b :: kfreeGo p (off + b.get_size) rest

/-- `kfree` of kmem.rs: a null pointer is a no-op; otherwise free the
header one `AllocList` before `ptr` and run `coalesce`. -/
def kfree (ptr : Nat) (hs : List AllocList) : List AllocList :=
  if ptr = 0 then hs else coalesce (kfreeGo (ptr - 8) 0 hs)

/-- Sum of the stored block sizes of a heap chain. -/
def sumSizes (hs : List AllocList) : Nat := (hs.map AllocList.get_size).sum

/-- The heap tiling invariant (spec §3, "Free-list heap-block header"):
the blocks walked from the head tile the whole heap — their sizes sum to
`64 * 4096` — and every block's size is at least the header size. -/
def heapWF (hs : List AllocList) : Prop :=
  sumSizes hs = KMEM_ALLOC * PAGE_SIZE ∧ ∀ b ∈ hs, 8 ≤ b.get_size

instance : DecidablePred heapWF := fun hs => by
  unfold heapWF; infer_instance

/-! ## Concrete states used by the closed theorems

A small but fully faithful configuration: a heap region of 8 frames
(`HEAP_SIZE = 32768`) based at `2^20`, so `ALLOC_START = 2^20 + 4096`
(aligned up past the 8 descriptor bytes), and a root page table placed at
address `2^40`, far from every frame the allocator can hand out. -/

/-- A fresh frame-allocator state: all descriptors clear, as `page::init`
leaves them. -/
def psFresh : PageState :=
  { heap_start := 1048576
    heap_size := 32768
    alloc_start := 1052672
    pages := List.replicate 8 ⟨0⟩ }

/-- All-zero physical memory. -/
def memZero : Nat → Nat := fun _ => 0

/-- Address of the root page table used by the concrete runs. -/
def rootA : Nat := 2 ^ 40

/-- A fresh machine: fresh allocator, zeroed memory (so the root table at
`rootA` has 512 invalid entries). -/
def mFresh : Machine := { ps := psFresh, mem := memZero }

/-- Observation: the word at address `a` after a machine-producing
operation (`none` when the operation ended in a fatal assertion). -/
def obsEntry (r : Except String Machine) (a : Nat) : Option Nat :=
  r.toOption.map fun m => rdWord m a

/-- Observation: `virt_to_phys` after a machine-producing operation. -/
def obsVtp (r : Except String Machine) (rootAddr vaddr : Nat) : Option (Option Nat) :=
  r.toOption.map fun m => virtToPhys m rootAddr vaddr

/-- Observation: did the operation complete without a fatal assertion? -/
def obsOk (r : Except String Machine) : Bool :=
  match r with
  | .ok _ => true
  | .error _ => false

/-- A machine whose root table holds one valid branch entry (index 0)
pointing at the frame `2^20 + 4096 = ALLOC_START`, whose descriptor is
marked taken-and-last; the level-1 table in that frame is all zeroes.
This is exactly the machine state after `map` built one intermediate
table there and `unmap` is about to tear it down. -/
def mOneBranch : Machine :=
  { ps := { psFresh with pages := ⟨3⟩ :: List.replicate 7 ⟨0⟩ }
    mem := fun a => if a = rootA then 263169 else 0 }

/-! ## Helper lemmas: 64-bit flag arithmetic -/

theorem taken_flag_eq : TAKEN_FLAG = 2 ^ 63 := by decide

theorem and_mask_eq_mod (x : Nat) : x &&& (TAKEN_FLAG - 1) = x % 2 ^ 63 := by
  rw [taken_flag_eq, Nat.and_pow_two_sub_one_eq_mod]

theorem lor_flag_and_mask (x : Nat) :
    (x ||| TAKEN_FLAG) &&& (TAKEN_FLAG - 1) = x &&& (TAKEN_FLAG - 1) := by
  rw [taken_flag_eq]
  apply Nat.eq_of_testBit_eq
  intro i
  simp only [Nat.testBit_land, Nat.testBit_lor, Nat.testBit_two_pow,
    Nat.testBit_two_pow_sub_one]
  by_cases h : i < 63
  · have h' : ¬ (63 = i) := by omega
    simp [h, h']
  · simp [h]

theorem lor_flag_and_flag (x : Nat) : (x ||| TAKEN_FLAG) &&& TAKEN_FLAG = TAKEN_FLAG := by
  rw [taken_flag_eq]
  apply Nat.eq_of_testBit_eq
  intro i
  simp only [Nat.testBit_land, Nat.testBit_lor, Nat.testBit_two_pow]
  by_cases h : 63 = i <;> simp [h]

theorem small_and_flag (x : Nat) (h : x < 2 ^ 63) : x &&& TAKEN_FLAG = 0 := by
  rw [taken_flag_eq, Nat.and_two_pow, Nat.testBit_lt_two_pow h]
  rfl

namespace AllocList

theorem get_size_lt (b : AllocList) : b.get_size < 2 ^ 63 := by
  rw [get_size, and_mask_eq_mod]
  exact Nat.mod_lt _ (by norm_num)

theorem get_size_mk_small (x : Nat) (h : x < 2 ^ 63) : get_size ⟨x⟩ = x := by
  rw [get_size, and_mask_eq_mod]
  exact Nat.mod_eq_of_lt h

theorem is_taken_mk_small (x : Nat) (h : x < 2 ^ 63) : is_taken ⟨x⟩ = false := by
  simp [is_taken, small_and_flag x h]

theorem is_free_mk_small (x : Nat) (h : x < 2 ^ 63) : is_free ⟨x⟩ = true := by
  simp [is_free, is_taken_mk_small x h]

theorem is_taken_set_taken (b : AllocList) : b.set_taken.is_taken = true := by
  simp only [set_taken, is_taken]
  rw [lor_flag_and_flag]
  decide

theorem get_size_set_taken (b : AllocList) : b.set_taken.get_size = b.get_size := by
  simp [set_taken, get_size, lor_flag_and_mask]

theorem get_size_set_free (b : AllocList) : b.set_free.get_size = b.get_size := by
  simp [set_free, get_size, Nat.land_assoc]

theorem get_size_set_size (b : AllocList) (sz : Nat) (h : sz < 2 ^ 63) :
    (b.set_size sz).get_size = sz := by
  cases htk : b.is_taken
  · simp only [set_size, htk, Bool.false_eq_true, if_false, get_size]
    rw [and_mask_eq_mod, and_mask_eq_mod]
    omega
  · simp only [set_size, htk, if_true, get_size, lor_flag_and_mask]
    rw [and_mask_eq_mod, and_mask_eq_mod]
    omega

theorem get_size_set_size_self (b : AllocList) :
    (b.set_size b.get_size).get_size = b.get_size :=
  get_size_set_size b _ (get_size_lt b)

theorem set_free_set_taken_set_size (b : AllocList) (sz : Nat) (h : sz < 2 ^ 63) :
    (b.set_taken.set_size sz).set_free = ⟨sz⟩ := by
  simp only [set_size, is_taken_set_taken, if_true, set_free, lor_flag_and_mask]
  rw [and_mask_eq_mod, and_mask_eq_mod]
  congr 1
  omega

theorem is_free_set_size_of_free (b : AllocList) (sz : Nat) (h : b.is_taken = false) :
    (b.set_size sz).is_free = true := by
  rw [set_size, h]
  simp only [Bool.false_eq_true, if_false]
  exact is_free_mk_small _ (by rw [and_mask_eq_mod]; exact Nat.mod_lt _ (by norm_num))

end AllocList

/-! ## Helper lemmas: heap chain walks -/

theorem sumSizes_nil : sumSizes [] = 0 := rfl

theorem sumSizes_cons (b : AllocList) (l : List AllocList) :
    sumSizes (b :: l) = b.get_size + sumSizes l := by
  simp [sumSizes]

theorem zero_set_free : ((⟨0⟩ : AllocList).set_free) = ⟨0⟩ := by decide

/-- A successful `kmalloc` scan preserves the tiling data: the stored
sizes still sum to the same total and stay at least one header. -/
theorem kmallocGo_wf : ∀ (l : List AllocList) (size off : Nat) (l' : List AllocList) (p : Nat),
    8 ≤ size → (∀ b ∈ l, 8 ≤ b.get_size) → kmallocGo size off l = some (l', p) →
    sumSizes l' = sumSizes l ∧ ∀ b ∈ l', 8 ≤ b.get_size := by
  intro l
  induction l with
  | nil => intro size off l' p _ _ h; simp [kmallocGo] at h
  | cons b rest ih =>
    intro size off l' p hsz hmin h
    rw [kmallocGo] at h
    split at h
    · split at h
      · rename_i hcond
        have hlt : size < b.get_size := by
          simp only [Bool.and_eq_true, decide_eq_true_eq] at hcond
          exact hcond.2
        have hblt : b.get_size < 2 ^ 63 := AllocList.get_size_lt b
        split at h
        · rename_i hrem
          rw [Option.some.injEq, Prod.mk.injEq] at h
          obtain ⟨h1, _⟩ := h
          subst h1
          constructor
          · rw [sumSizes_cons, sumSizes_cons, sumSizes_cons,
              AllocList.get_size_set_size _ _ (by omega), zero_set_free,
              AllocList.get_size_set_size _ _ (by omega)]
            omega
          · intro c hc
            rw [List.mem_cons, List.mem_cons] at hc
            rcases hc with rfl | rfl | hc
            · rw [AllocList.get_size_set_size _ _ (by omega)]; exact hsz
            · rw [zero_set_free, AllocList.get_size_set_size _ _ (by omega)]; omega
            · exact hmin c (List.mem_cons_of_mem _ hc)
        · rename_i hrem
          rw [Option.some.injEq, Prod.mk.injEq] at h
          obtain ⟨h1, _⟩ := h
          subst h1
          constructor
          · rw [sumSizes_cons, sumSizes_cons,
              AllocList.get_size_set_size _ _ (by omega)]
          · intro c hc
            rw [List.mem_cons] at hc
            rcases hc with rfl | hc
            · rw [AllocList.get_size_set_size _ _ (by omega)]
              exact hmin b (List.mem_cons_self _ _)
            · exact hmin c (List.mem_cons_of_mem _ hc)
      · rw [Option.map_eq_some'] at h
        obtain ⟨⟨l'', p''⟩, hgo, hmk⟩ := h
        rw [Prod.mk.injEq] at hmk
        obtain ⟨h1, _⟩ := hmk
        subst h1
        obtain ⟨hsum, hmin'⟩ := ih size (off + b.get_size) l'' p'' hsz
          (fun c hc => hmin c (List.mem_cons_of_mem _ hc)) hgo
        constructor
        · rw [sumSizes_cons, sumSizes_cons, hsum]
        · intro c hc
          rw [List.mem_cons] at hc
          rcases hc with hceq | hc
          · rw [hceq]; exact hmin b (List.mem_cons_self _ _)
          · exact hmin' c hc
    · exact absurd h (by simp)

/-- `coalesce` preserves the tiling data (strong induction on the chain
length, since a merge consumes two headers at once). -/
theorem coalesceGo_wf_aux : ∀ (n : Nat) (l : List AllocList) (off : Nat),
    l.length ≤ n → (∀ b ∈ l, 8 ≤ b.get_size) → sumSizes l < 2 ^ 63 →
    sumSizes (coalesceGo off l) = sumSizes l ∧ ∀ b ∈ coalesceGo off l, 8 ≤ b.get_size := by
  intro n
  induction n with
  | zero =>
    intro l off hlen hmin hsum
    have : l = [] := List.length_eq_zero.mp (Nat.le_zero.mp hlen)
    subst this
    simp [coalesceGo]
  | succ n ih =>
    intro l off hlen hmin hsum
    match l with
    | [] => simp [coalesceGo]
    | [b] => simp [coalesceGo, hmin]
    | b :: nb :: rest' =>
      rw [coalesceGo]
      split
      · exact ⟨rfl, hmin⟩
      split
      · exact ⟨rfl, hmin⟩
      split
      · exact ⟨rfl, hmin⟩
      split
      case isTrue =>
            have hb : 8 ≤ b.get_size := hmin b (List.mem_cons_self _ _)
            have hnb : 8 ≤ nb.get_size := hmin nb (by simp)
            have hbound : b.get_size + nb.get_size < 2 ^ 63 := by
              rw [sumSizes_cons, sumSizes_cons] at hsum
              omega
            have hm : (b.set_size (b.get_size + nb.get_size)).get_size
                = b.get_size + nb.get_size := AllocList.get_size_set_size _ _ hbound
            have hrest' : sumSizes rest' < 2 ^ 63 := by
              rw [sumSizes_cons, sumSizes_cons] at hsum
              omega
            have hlen' : rest'.length ≤ n := by
              simp at hlen
              omega
            obtain ⟨ihs, ihm⟩ := ih rest' (off + (b.set_size (b.get_size + nb.get_size)).get_size) hlen'
              (fun c hc => hmin c (by simp [hc])) hrest'
            constructor
            · rw [sumSizes_cons, ihs, hm, sumSizes_cons, sumSizes_cons]
              omega
            · intro c hc
              rw [List.mem_cons] at hc
              rcases hc with hceq | hc
              · rw [hceq, hm]; omega
              · exact ihm c hc
      case isFalse =>
            have hlen' : (nb :: rest').length ≤ n := by
              simp at hlen ⊢
              omega
            have hrest : sumSizes (nb :: rest') < 2 ^ 63 := by
              rw [sumSizes_cons] at hsum
              omega
            obtain ⟨ihs, ihm⟩ := ih (nb :: rest') (off + b.get_size) hlen'
              (fun c hc => hmin c (List.mem_cons_of_mem _ hc)) hrest
            constructor
            · simp [sumSizes_cons, ihs]
            · intro c hc
              rw [List.mem_cons] at hc
              rcases hc with hceq | hc
              · rw [hceq]; exact hmin b (List.mem_cons_self _ _)
              · exact ihm c hc

theorem coalesce_wf (l : List AllocList) (hmin : ∀ b ∈ l, 8 ≤ b.get_size)
    (hsum : sumSizes l < 2 ^ 63) :
    sumSizes (coalesce l) = sumSizes l ∧ ∀ b ∈ coalesce l, 8 ≤ b.get_size :=
  coalesceGo_wf_aux l.length l 0 le_rfl hmin hsum

/-- The header update of `kfree` changes only a taken flag: every stored
size is untouched. -/
theorem kfreeGo_sizes : ∀ (l : List AllocList) (p off : Nat),
    (kfreeGo p off l).map AllocList.get_size = l.map AllocList.get_size := by
  intro l
  induction l with
  | nil => intro p off; rfl
  | cons b rest ih =>
    intro p off
    rw [kfreeGo]
    split
    · split
      · simp [AllocList.get_size_set_free]
      · simp
    · simp [ih]

/-- A successful `kmalloc` scan found a free block whose stored size
strictly exceeds the adjusted request. -/
theorem kmallocGo_found : ∀ (l : List AllocList) (size off : Nat) (l' : List AllocList) (p : Nat),
    kmallocGo size off l = some (l', p) →
    ∃ b ∈ l, b.is_free = true ∧ size < b.get_size := by
  intro l
  induction l with
  | nil => intro size off l' p h; simp [kmallocGo] at h
  | cons b rest ih =>
    intro size off l' p h
    rw [kmallocGo] at h
    split at h
    · split at h
      · rename_i hcond
        simp only [Bool.and_eq_true, decide_eq_true_eq] at hcond
        exact ⟨b, List.mem_cons_self _ _, hcond⟩
      · rw [Option.map_eq_some'] at h
        obtain ⟨⟨l'', p''⟩, hgo, _⟩ := h
        obtain ⟨c, hc, hfree, hlt⟩ := ih size (off + b.get_size) l'' p'' hgo
        exact ⟨c, List.mem_cons_of_mem _ hc, hfree, hlt⟩
    · exact absurd h (by simp)

/-- When every free block's stored size is exactly the adjusted request,
the strict-excess test never fires and the scan returns null. -/
theorem kmallocGo_exact_fit_none : ∀ (l : List AllocList) (size off : Nat),
    (∀ b ∈ l, b.is_free = true → b.get_size = size) →
    kmallocGo size off l = none := by
  intro l
  induction l with
  | nil => intro size off _; rfl
  | cons b rest ih =>
    intro size off hex
    rw [kmallocGo]
    split
    · have hcond : (b.is_free && decide (size < b.get_size)) = false := by
        cases hfree : b.is_free
        · simp
        · have := hex b (List.mem_cons_self _ _) hfree
          simp [this]
      rw [hcond]
      simp only [Bool.false_eq_true, if_false]
      rw [ih size (off + b.get_size) (fun c hc => hex c (List.mem_cons_of_mem _ hc))]
      rfl
    · rfl

theorem heapInit_eq : heapInit = [⟨262144⟩] := by decide

theorem heapTail_eq : heapTail = 262144 := by decide

theorem AllocList.is_taken_mk_or (x : Nat) :
    AllocList.is_taken ⟨x ||| TAKEN_FLAG⟩ = true := by
  simp only [AllocList.is_taken]
  rw [lor_flag_and_flag]
  decide

theorem AllocList.is_taken_set_taken_set_size (b : AllocList) (sz : Nat) :
    (b.set_taken.set_size sz).is_taken = true := by
  rw [AllocList.set_size, if_pos (AllocList.is_taken_set_taken b)]
  exact AllocList.is_taken_mk_or _

theorem AllocList.free_set_size (x sz : Nat) (h : AllocList.is_taken ⟨x⟩ = false) :
    (⟨x⟩ : AllocList).set_size sz = ⟨sz &&& (TAKEN_FLAG - 1)⟩ := by
  rw [AllocList.set_size, if_neg (by rw [h]; simp)]

theorem AllocList.zero_block_set_size (sz : Nat) (h : sz < 2 ^ 63) :
    ((⟨0⟩ : AllocList).set_free).set_size sz = ⟨sz⟩ := by
  rw [zero_set_free, AllocList.free_set_size _ _ (by decide), and_mask_eq_mod,
    Nat.mod_eq_of_lt h]

/-- Claim C5 main theorem (see the doc comment at `C5_heap_roundtrip`). -/
theorem kmalloc_heapInit_cases (s : Nat) (hs : List AllocList) (p : Nat)
    (h : kmalloc s heapInit = some (hs, p)) :
    p = 8 ∧
      ((align_val s 3 + 8 < 262144 ∧ 262144 - (align_val s 3 + 8) > 8 ∧
        hs = [(⟨262144⟩ : AllocList).set_taken.set_size (align_val s 3 + 8),
          ⟨262144 - (align_val s 3 + 8)⟩]) ∨
       (align_val s 3 + 8 < 262144 ∧ ¬ 262144 - (align_val s 3 + 8) > 8 ∧
        hs = [(⟨262144⟩ : AllocList).set_taken.set_size 262144])) := by
  rw [kmalloc, heapInit_eq, kmallocGo] at h
  rw [if_pos (by rw [heapTail_eq]; omega)] at h
  have hfree : (⟨262144⟩ : AllocList).is_free = true := by decide
  have hgs : (⟨262144⟩ : AllocList).get_size = 262144 := by decide
  rw [hfree, hgs] at h
  simp only [Bool.true_and] at h
  by_cases hlt : align_val s 3 + 8 < 262144
  · rw [if_pos (by simpa using hlt)] at h
    split at h
    · rename_i hrem
      rw [Option.some.injEq, Prod.mk.injEq] at h
      obtain ⟨h1, h2⟩ := h
      refine ⟨h2.symm, Or.inl ⟨hlt, hrem, ?_⟩⟩
      rw [← h1, AllocList.zero_block_set_size _ (by omega)]
    · rename_i hrem
      rw [Option.some.injEq, Prod.mk.injEq] at h
      obtain ⟨h1, h2⟩ := h
      exact ⟨h2.symm, Or.inr ⟨hlt, hrem, h1.symm⟩⟩
  · rw [if_neg (by simpa using hlt)] at h
    simp [kmallocGo] at h

theorem coalesce_two_free (a c : Nat) (ha8 : 8 ≤ a) (hc : 0 < c) (hac : a + c = 262144) :
    coalesce [⟨a⟩, ⟨c⟩] = [⟨262144⟩] := by
  have ha' : a < 2 ^ 63 := by omega
  have hc' : c < 2 ^ 63 := by omega
  rw [coalesce, coalesceGo]
  rw [AllocList.get_size_mk_small a ha', heapTail_eq]
  rw [if_neg (by omega), if_neg (by omega), if_neg (by omega)]
  rw [AllocList.is_free_mk_small a ha', AllocList.is_free_mk_small c hc']
  rw [if_pos (by rfl)]
  rw [AllocList.get_size_mk_small c hc', hac,
    AllocList.free_set_size _ _ (AllocList.is_taken_mk_small a ha'),
    and_mask_eq_mod, Nat.mod_eq_of_lt (by norm_num)]
  simp [coalesceGo]

/-- Claim C5: heap round-trip.  Starting from the freshly initialized
heap (one free block spanning all `64 * 4096` bytes), for every size `s`
for which `kmalloc(s)` returns non-null, `kfree` on the returned pointer
restores the heap to exactly one free block spanning the original
`64 * 4096` bytes. -/
theorem C5_heap_roundtrip : ∀ (s : Nat) (hs : List AllocList) (p : Nat),
    kmalloc s heapInit = some (hs, p) → kfree p hs = heapInit := by
  intro s hs p h
  obtain ⟨hp, hcase⟩ := kmalloc_heapInit_cases s hs p h
  subst hp
  rw [heapInit_eq]
  rcases hcase with ⟨hlt, hrem, hhs⟩ | ⟨hlt, hrem, hhs⟩
  · subst hhs
    rw [kfree, if_neg (by omega), show (8 : Nat) - 8 = 0 from rfl, kfreeGo,
      if_pos rfl, if_pos (AllocList.is_taken_set_taken_set_size _ _),
      AllocList.set_free_set_taken_set_size _ _ (by omega)]
    exact coalesce_two_free _ _ (by omega) (by omega) (by omega)
  · subst hhs
    rw [kfree, if_neg (by omega), show (8 : Nat) - 8 = 0 from rfl, kfreeGo,
      if_pos rfl, if_pos (AllocList.is_taken_set_taken_set_size _ _),
      AllocList.set_free_set_taken_set_size _ _ (by norm_num)]
    rfl

/-- Witness for C5 at the concrete request `s = 16`: `kmalloc` succeeds
with the split heap below and `kfree` restores the fresh heap. -/
theorem C5_heap_roundtrip_witness :
    kfree 8 [⟨9223372036854775832⟩, ⟨262120⟩] = heapInit :=
  C5_heap_roundtrip 16 [⟨9223372036854775832⟩, ⟨262120⟩] 8 (by decide)

theorem kfreeGo_min : ∀ (l : List AllocList) (p off : Nat),
    (∀ b ∈ l, 8 ≤ b.get_size) → ∀ b ∈ kfreeGo p off l, 8 ≤ b.get_size := by
  intro l
  induction l with
  | nil => intro p off _ b hb; simp [kfreeGo] at hb
  | cons b rest ih =>
    intro p off hmin c hc
    rw [kfreeGo] at hc
    split at hc
    · split at hc
      · rw [List.mem_cons] at hc
        rcases hc with hceq | hc
        · rw [hceq, AllocList.get_size_set_free]
          exact hmin b (List.mem_cons_self _ _)
        · exact hmin c (List.mem_cons_of_mem _ hc)
      · exact hmin c hc
    · rw [List.mem_cons] at hc
      rcases hc with hceq | hc
      · rw [hceq]; exact hmin b (List.mem_cons_self _ _)
      · exact ih p (off + b.get_size) (fun d hd => hmin d (List.mem_cons_of_mem _ hd)) c hc

/-- Claim C8: heap tiling invariant.  After heap init the block chain
tiles the heap (sizes sum to `64 * 4096`, every size at least one header),
and `kmalloc`, `kzmalloc`, `kfree` and `coalesce` all preserve this
invariant. -/
theorem C8_heap_tiling_invariant :
    heapWF heapInit ∧
    (∀ s hs hs' p, heapWF hs → kmalloc s hs = some (hs', p) → heapWF hs') ∧
    (∀ s hs hs' p, heapWF hs → kzmalloc s hs = some (hs', p) → heapWF hs') ∧
    (∀ ptr hs, heapWF hs → heapWF (kfree ptr hs)) ∧
    (∀ hs, heapWF hs → heapWF (coalesce hs)) := by
  have hkm : ∀ s hs hs' p, heapWF hs → kmalloc s hs = some (hs', p) → heapWF hs' := by
    intro s hs hs' p hwf h
    obtain ⟨hsum, hmin⟩ := hwf
    obtain ⟨h1, h2⟩ := kmallocGo_wf hs (align_val s 3 + 8) 0 hs' p
      (Nat.le_add_left 8 _) hmin h
    exact ⟨by rw [h1, hsum], h2⟩
  have hco : ∀ hs, heapWF hs → heapWF (coalesce hs) := by
    intro hs hwf
    obtain ⟨hsum, hmin⟩ := hwf
    obtain ⟨h1, h2⟩ := coalesce_wf hs hmin (by rw [hsum]; decide)
    exact ⟨by rw [h1, hsum], h2⟩
  refine ⟨by decide, hkm, ?_, ?_, hco⟩
  · intro s hs hs' p hwf h
    rw [kzmalloc] at h
    exact hkm (align_val s 3) hs hs' p hwf h
  · intro ptr hs hwf
    rw [kfree]
    split
    · exact hwf
    · apply hco
      obtain ⟨hsum, hmin⟩ := hwf
      constructor
      · simp only [sumSizes]
        rw [kfreeGo_sizes]
        exact hsum
      · exact kfreeGo_min hs (ptr - 8) 0 hmin

/-- Witness for C8 at concrete heap states: `kmalloc 8` on the fresh heap
preserves the invariant, and so does `kfree` of that allocation. -/
theorem C8_heap_tiling_invariant_witness :
    heapWF [⟨9223372036854775824⟩, ⟨262128⟩] ∧
    heapWF (kfree 8 [⟨9223372036854775824⟩, ⟨262128⟩]) :=
  ⟨C8_heap_tiling_invariant.2.1 8 heapInit [⟨9223372036854775824⟩, ⟨262128⟩] 8
      (by decide) (by decide),
    C8_heap_tiling_invariant.2.2.2.1 8 [⟨9223372036854775824⟩, ⟨262128⟩] (by decide)⟩

/-- Claim C10: `kmalloc` never allocates from an exact-fit block.  A free
block is used only when its stored size strictly exceeds
`align_val(s,3) + 8`; consequently, in every well-formed heap state whose
free blocks all have exactly the needed size, `kmalloc s` returns null
even though the request would fit in any of them. -/
theorem C10_no_exact_fit :
    (∀ s hs hs' p, kmalloc s hs = some (hs', p) →
      ∃ b ∈ hs, b.is_free = true ∧ align_val s 3 + 8 < b.get_size) ∧
    (∀ s hs, heapWF hs →
      (∀ b ∈ hs, b.is_free = true → b.get_size = align_val s 3 + 8) →
      kmalloc s hs = none) := by
  constructor
  · intro s hs hs' p h
    exact kmallocGo_found hs (align_val s 3 + 8) 0 hs' p h
  · intro s hs _ hex
    exact kmallocGo_exact_fit_none hs (align_val s 3 + 8) 0 hex

/-- Witness for C10: on the fresh heap `kmalloc 8` succeeds (so some free
block strictly exceeds 16 bytes), while on a tiled heap whose single free
block is exactly 16 bytes the same request returns null. -/
theorem C10_no_exact_fit_witness :
    (∃ b ∈ heapInit, b.is_free = true ∧ align_val 8 3 + 8 < b.get_size) ∧
    kmalloc 8 [⟨16⟩, ⟨9223372036855037936⟩] = none :=
  ⟨C10_no_exact_fit.1 8 heapInit [⟨9223372036854775824⟩, ⟨262128⟩] 8 (by decide),
    C10_no_exact_fit.2 8 [⟨16⟩, ⟨9223372036855037936⟩] (by decide) (by decide)⟩

/-! ## Frame-allocator claims -/

/-- A one-frame allocator state: `HEAP_SIZE = 4096`, a single free frame. -/
def psOnePage : PageState :=
  { heap_start := 4096, heap_size := 4096, alloc_start := 8192, pages := [⟨0⟩] }

/-- Counterexample to claim C4 as stated: in `psOnePage` a run of 1 free
frame exists (descriptor 0 is free) and 1 does not exceed the 1 available
frame, yet `alloc(1)` returns a null pointer, because the scan
`for i in 0..(num_pages - pages)` excludes the start index
`num_pages - pages = 0` itself. -/
theorem C4_counterexample :
    psOnePage.alloc 1 = .ok (none, psOnePage) ∧
    psOnePage.runIsFree 0 1 = true ∧
    1 ≤ psOnePage.numPages := by
  refine ⟨rfl, by decide, by decide⟩

/-- Claim C4 amended: whenever a run of `n ≥ 1` contiguous free frames
starts at an index `i` strictly below `num_pages - n` (the scan's
exclusive bound), `alloc(n)` returns a physical address that is a multiple
of 4096 (`ALLOC_START` is 4096-aligned by `init`) and non-null (for a
non-null `ALLOC_START`), and the returned run of `n` frames was entirely
free before the call — hence it overlaps no live (taken) allocation. -/
theorem C4_alloc_amended : ∀ (st : PageState) (n i : Nat),
    0 < n → i < st.numPages - n → st.runIsFree i n = true →
    st.alloc_start % 4096 = 0 → 0 < st.alloc_start →
    ∃ j st', st.alloc n = .ok (some (st.alloc_start + PAGE_SIZE * j), st') ∧
      st.runIsFree j n = true ∧
      (st.alloc_start + PAGE_SIZE * j) % 4096 = 0 ∧
      0 < st.alloc_start + PAGE_SIZE * j := by
  intro st n i hn hi hrun halign hpos
  have hex : ∃ x ∈ List.range (st.numPages - n), st.runIsFree x n = true :=
    ⟨i, List.mem_range.mpr hi, hrun⟩
  have hsome : (List.find? (fun k => st.runIsFree k n)
      (List.range (st.numPages - n))).isSome = true :=
    List.find?_isSome.mpr hex
  obtain ⟨j, hj⟩ := Option.isSome_iff_exists.mp hsome
  have hpj : st.runIsFree j n = true := by
    have h' := @List.find?_some _ (fun k => st.runIsFree k n) j _ hj
    simpa using h'
  refine ⟨j, { st with pages := PageState.markTaken st.pages j n }, ?_, hpj, ?_, ?_⟩
  · rw [PageState.alloc, if_neg (by omega), PageState.allocCore, PageState.allocFind, hj]
  · have h4096 : PAGE_SIZE = 4096 := rfl
    rw [h4096]
    omega
  · exact Nat.lt_of_lt_of_le hpos (Nat.le_add_right _ _)

/-- Witness for the amended C4 on the fresh 8-frame allocator. -/
theorem C4_alloc_amended_witness :
    ∃ j st', psFresh.alloc 1 = .ok (some (psFresh.alloc_start + PAGE_SIZE * j), st') ∧
      psFresh.runIsFree j 1 = true ∧
      (psFresh.alloc_start + PAGE_SIZE * j) % 4096 = 0 ∧
      0 < psFresh.alloc_start + PAGE_SIZE * j :=
  C4_alloc_amended psFresh 1 0 (by decide) (by decide) (by decide) (by decide) (by decide)

/-- The forward walk hits the fatal double-free assertion exactly when the
first descriptor that is not taken-and-not-last is free and not last. -/
theorem deallocWalk_double_free : ∀ (pre : List Page) (f : Page) (suf : List Page),
    (∀ g ∈ pre, g.is_taken = true ∧ g.is_last = false) →
    f.is_taken = false → f.is_last = false →
    deallocWalk (pre ++ f :: suf) = .error "Possible double-free encountered" := by
  intro pre
  induction pre with
  | nil =>
    intro f suf _ htk hl
    rw [List.nil_append, deallocWalk]
    simp [htk, hl]
  | cons g pre' ih =>
    intro f suf hpre htk hl
    obtain ⟨hg1, hg2⟩ := hpre g (List.mem_cons_self _ _)
    rw [List.cons_append, deallocWalk, if_pos (by simp [hg1, hg2]),
      ih f suf (fun d hd => hpre d (List.mem_cons_of_mem _ hd)) htk hl]
    rfl

/-- The forward walk clears descriptors up to and including the first one
flagged `last`, and only then. -/
theorem deallocWalk_clears_to_last : ∀ (pre : List Page) (f : Page) (suf : List Page),
    (∀ g ∈ pre, g.is_taken = true ∧ g.is_last = false) →
    f.is_last = true →
    deallocWalk (pre ++ f :: suf) = .ok (List.replicate (pre.length + 1) (⟨0⟩ : Page) ++ suf) := by
  intro pre
  induction pre with
  | nil =>
    intro f suf _ hl
    rw [List.nil_append, deallocWalk]
    simp [hl]
  | cons g pre' ih =>
    intro f suf hpre hl
    obtain ⟨hg1, hg2⟩ := hpre g (List.mem_cons_self _ _)
    rw [List.cons_append, deallocWalk, if_pos (by simp [hg1, hg2]),
      ih f suf (fun d hd => hpre d (List.mem_cons_of_mem _ hd)) hl]
    simp [Except.map, List.replicate_succ]

/-- Claim C6 amended: `dealloc` aborts fatally on a null pointer, and on
any pointer whose computed descriptor address `HEAP_START +
(ptr - ALLOC_START)/PAGE_SIZE` falls outside `[HEAP_START, HEAP_START +
HEAP_SIZE)` — but this is weaker than "outside the allocatable frame
range": a pointer past the last frame whose descriptor index is still
below `HEAP_SIZE` passes the assertion (see `C6_counterexample`).  The
forward-clearing walk is fatal when it reaches a free, non-last
descriptor, and clears the `last`-flagged descriptor exactly when it is
reached. -/
theorem C6_dealloc_amended :
    (∀ st : PageState, st.dealloc 0 = .error "assertion failed: ptr is null") ∧
    (∀ (st : PageState) (ptr : Nat), ptr ≠ 0 →
      ¬ (st.heap_start ≤ st.deallocPSA ptr ∧
        st.deallocPSA ptr < st.heap_start + st.heap_size) →
      st.dealloc ptr = .error "assertion failed: page_struct_addr outside heap range") ∧
    (∀ (pre : List Page) (f : Page) (suf : List Page),
      (∀ g ∈ pre, g.is_taken = true ∧ g.is_last = false) →
      f.is_taken = false → f.is_last = false →
      deallocWalk (pre ++ f :: suf) = .error "Possible double-free encountered") ∧
    (∀ (pre : List Page) (f : Page) (suf : List Page),
      (∀ g ∈ pre, g.is_taken = true ∧ g.is_last = false) →
      f.is_last = true →
      deallocWalk (pre ++ f :: suf) = .ok (List.replicate (pre.length + 1) (⟨0⟩ : Page) ++ suf)) := by
  refine ⟨?_, ?_, deallocWalk_double_free, deallocWalk_clears_to_last⟩
  · intro st
    rw [PageState.dealloc, if_pos rfl]
  · intro st ptr h0 hr
    rw [PageState.dealloc, if_neg h0, if_neg hr]

/-- Witness for the amended C6 at concrete states. -/
theorem C6_dealloc_amended_witness :
    psFresh.dealloc 0 = .error "assertion failed: ptr is null" ∧
    psFresh.dealloc 1 = .error "assertion failed: page_struct_addr outside heap range" ∧
    deallocWalk [⟨1⟩, ⟨0⟩] = .error "Possible double-free encountered" ∧
    deallocWalk [⟨1⟩, ⟨3⟩, ⟨7⟩] = .ok (List.replicate 2 (⟨0⟩ : Page) ++ [⟨7⟩]) :=
  ⟨C6_dealloc_amended.1 psFresh,
    C6_dealloc_amended.2.1 psFresh 1 (by decide) (by decide),
    C6_dealloc_amended.2.2.1 [⟨1⟩] ⟨0⟩ [] (by decide) (by decide) (by decide),
    C6_dealloc_amended.2.2.2 [⟨1⟩] ⟨3⟩ [⟨7⟩] (by decide) (by decide)⟩

/-- A two-frame allocator state whose third modeled memory byte (one past
the descriptor table) happens to hold the bit pattern 2. -/
def psTwoPage : PageState :=
  { heap_start := 4096, heap_size := 8192, alloc_start := 8192, pages := [⟨3⟩, ⟨3⟩, ⟨2⟩] }

/-- Counterexample to claim C6 as stated: `ptr = 16384` lies outside the
allocatable frame range `[8192, 16384)` of `psTwoPage`, yet `dealloc`
passes both assertions (its descriptor index 2 is below `HEAP_SIZE`) and
completes normally, clearing a byte beyond the descriptor table. -/
theorem C6_counterexample :
    psTwoPage.dealloc 16384 =
      .ok (⟨4096, 8192, 8192, [⟨3⟩, ⟨3⟩, ⟨0⟩]⟩ : PageState) ∧
    psTwoPage.alloc_start + psTwoPage.numPages * PAGE_SIZE ≤ 16384 ∧
    (16384 : Nat) ≠ 0 :=
  ⟨rfl, by decide, by decide⟩

/-! ## Translation-subsystem claims -/

/-- A root entry that is not a valid branch makes `unmap`'s level-2
iteration a no-op. -/
theorem unmapStep_skip (rootAddr : Nat) (m : Machine) (lv2 : Nat)
    (h : (entryIsValid (rdWord m (rootAddr + 8 * lv2)) &&
      entryIsBranch (rdWord m (rootAddr + 8 * lv2))) = false) :
    unmapStep rootAddr m lv2 = .ok m := by
  simp only [unmapStep]
  rw [h]
  rfl

theorem foldlM_unmapStep_skip (rootAddr : Nat) : ∀ (l : List Nat) (m : Machine),
    (∀ i ∈ l, (entryIsValid (rdWord m (rootAddr + 8 * i)) &&
      entryIsBranch (rdWord m (rootAddr + 8 * i))) = false) →
    l.foldlM (unmapStep rootAddr) m = .ok m := by
  intro l
  induction l with
  | nil => intro m _; rfl
  | cons a l' ih =>
    intro m h
    rw [List.foldlM_cons, unmapStep_skip rootAddr m a (h a (List.mem_cons_self _ _))]
    exact ih m (fun i hi => h i (List.mem_cons_of_mem _ hi))

/-- Claim C2 amended: `unmap` is a no-op (and hence idempotent) on a root
table with no valid branch entries, such as a freshly zeroed table.  It is
*not* idempotent in general: `unmap` leaves the root's branch entries
valid while freeing the frames they point to, so on a table that was torn
down once, a second `unmap` re-deallocs a freed table frame and dies on
the fatal double-free assertion (see `C2_counterexample`). -/
theorem C2_unmap_amended : ∀ (m : Machine) (rootAddr : Nat),
    (∀ i, i < 512 → (entryIsValid (rdWord m (rootAddr + 8 * i)) &&
      entryIsBranch (rdWord m (rootAddr + 8 * i))) = false) →
    unmapOp m rootAddr = .ok m := by
  intro m rootAddr h
  exact foldlM_unmapStep_skip rootAddr (List.range 512) m
    (fun i hi => h i (List.mem_range.mp hi))

set_option maxRecDepth 100000 in
/-- Witness for the amended C2: `unmap` of the fresh machine's all-zero
root table returns the machine unchanged. -/
theorem C2_unmap_amended_witness : unmapOp mFresh rootA = .ok mFresh :=
  C2_unmap_amended mFresh rootA (by decide)

set_option maxRecDepth 100000 in
/-- Counterexample to claim C2 as stated: on `mOneBranch` the first
`unmap` completes, but running `unmap` twice in succession is fatal — the
second call follows the still-valid root branch entry and re-deallocs the
level-1 table frame freed by the first call, dying on the double-free
assertion. -/
theorem C2_counterexample :
    obsOk (unmapOp mOneBranch rootA) = true ∧
    ((unmapOp mOneBranch rootA).bind fun m1 => unmapOp m1 rootA) =
      .error "Possible double-free encountered" :=
  ⟨rfl, rfl⟩

/-- Claim C9 amended: within a single `map` call, an entry above the
target level is written only if it is invalid — `mapStep` on a valid entry
returns the machine unchanged and merely follows the branch.  However, a
valid intermediate entry is *not* left unchanged by every subsequent
`map` call: a later call whose target level is that entry's own level
overwrites the branch with a leaf (see `C9_counterexample`). -/
theorem C9_map_amended : ∀ (m : Machine) (v d : Nat),
    entryIsValid (rdWord m v) = true →
    (branchTarget (rdWord m v) + 8 * d) % 2 ^ 64 ≠ 0 →
    mapStep m v d = .ok (m, (branchTarget (rdWord m v) + 8 * d) % 2 ^ 64) := by
  intro m v d hv hnz
  simp [mapStep, hv]
  simpa using hnz

/-- Witness for the amended C9: following the valid branch entry of
`mOneBranch`'s root leaves the machine unchanged. -/
theorem C9_map_amended_witness :
    mapStep mOneBranch rootA 0 = .ok (mOneBranch, 1052672) :=
  C9_map_amended mOneBranch rootA 0 (by decide) (by decide)

/-- `map(root, 0, 0x1000, READ|WRITE, 0)` on the fresh machine: builds a
level-1 table at `1052672` and a level-0 table at `1056768`. -/
def mapLv0Run : Except String Machine := mapOp mFresh rootA 0 0x1000 6 0

/-- The same mapping followed by `map(root, 0, 0x2000, READ|WRITE, 1)`:
the second call's target level is 1, where the first call installed a
branch. -/
def mapLv1Run : Except String Machine :=
  mapLv0Run.bind fun m1 => mapOp m1 rootA 0 0x2000 6 1

/-- Counterexample to claim C9 as stated: after `mapLv0Run` the level-1
entry at address `1052672` is a valid branch (`264193`), yet the
subsequent `map` call at target level 1 rewrites that valid intermediate
entry to the leaf `2055` — a branch is not left unchanged by every
subsequent `map` call. -/
theorem C9_counterexample :
    obsEntry mapLv0Run 1052672 = some 264193 ∧
    entryIsValid 264193 = true ∧ entryIsBranch 264193 = true ∧
    obsEntry mapLv1Run 1052672 = some 2055 ∧ entryIsLeaf 2055 = true :=
  ⟨rfl, rfl, rfl, rfl, rfl⟩

/-- `map(root, 0x200000, 0x1000, READ|WRITE, 0)` on the fresh machine:
`vaddr = 2 MiB` has `vaddr >> 12 = 512`. -/
def mapOOBRun : Except String Machine := mapOp mFresh rootA 0x200000 0x1000 6 0

/-- Claim C1 (code bug): `map` computes `vpn = [vaddr >> 12, vaddr >> 21,
vaddr >> 30]` without masking each digit to 9 bits, contradicting its own
comments (`VPN[i]` of the RISC-V privileged ISA are 9-bit fields) and the
spec.  At `vaddr = 0x200000` and `level = 0`, the level-0 index is `512`,
not the 9-bit digit `0`: the walk completes and writes the leaf `1031`
at `8 * 512` bytes past the level-0 table base `1056768` — outside the
512-entry table — while the table's in-bounds slot 0 stays zero.
(The kernel itself performs such calls, e.g. `map(pt, 0x8000_0000,
0x8000_0000, bits, 0)` in process.rs.) -/
theorem C1_vpn_unmasked :
    mapVPN 0x200000 = [512, 1, 0] ∧
    obsOk mapOOBRun = true ∧
    obsEntry mapOOBRun (1056768 + 8 * 512) = some 1031 ∧
    obsEntry mapOOBRun 1056768 = some 0 ∧
    ¬ (1056768 + 8 * 512 < 1056768 + 4096) :=
  ⟨rfl, rfl, rfl, rfl, by decide⟩

/-- Claim C3 (code bug, spec-modelled `virt_to_phys`): on the fresh
machine's empty root table `virt_to_phys` is unmapped everywhere (two
sample addresses shown), and the round-trip holds at `V = 0`
(`map` then `virt_to_phys` yields `0x1000`); but at the page-aligned
`V = 0x200000`, `P = 0x1000`, `map(root, V, P, READ|WRITE, 0)` succeeds
and `virt_to_phys(root, V)` still returns unmapped instead of `P`,
because `map`'s unmasked level-0 digit 512 put the leaf outside the
table that the 9-bit walk reads. -/
theorem C3_roundtrip_fails :
    virtToPhys mFresh rootA 0x200000 = none ∧
    virtToPhys mFresh rootA 4096 = none ∧
    obsVtp mapLv0Run rootA 0 = some (some 0x1000) ∧
    obsOk mapOOBRun = true ∧
    obsVtp mapOOBRun rootA 0x200000 = some none :=
  ⟨rfl, rfl, rfl, rfl, rfl⟩

/-- Claim C7: the leaf entry written by `map` packs the physical page
number correctly.  For every physical address below `2^56` and permission
bits with at least one of read/write/execute set, the or of the three
shifted PPN fields `(ppn[2] << 28) | (ppn[1] << 19) | (ppn[0] << 10)`
(unmasked right-shifts of `paddr`) collapses to `(paddr >> 12) << 10`, so
the written entry equals `((paddr >> 12) << 10) | bits | Valid`. -/
theorem C7_leaf_entry_packs_ppn : ∀ (paddr bits : Nat), paddr < 2 ^ 56 →
    bits &&& 0xe ≠ 0 →
    leafEntry paddr bits = ((paddr >>> 12) <<< 10) ||| bits ||| 1 := by
  intro paddr bits hp _
  have hb30 : (paddr >>> 30) <<< 28 < 2 ^ 64 := by
    rw [Nat.shiftRight_eq_div_pow, Nat.shiftLeft_eq]
    have h1 : paddr / 2 ^ 30 < 2 ^ 26 :=
      Nat.div_lt_of_lt_mul (lt_of_lt_of_le hp (by norm_num))
    calc paddr / 2 ^ 30 * 2 ^ 28 < 2 ^ 26 * 2 ^ 28 :=
          (Nat.mul_lt_mul_right (by norm_num)).mpr h1
      _ ≤ 2 ^ 64 := by norm_num
  have hb21 : (paddr >>> 21) <<< 19 < 2 ^ 64 := by
    rw [Nat.shiftRight_eq_div_pow, Nat.shiftLeft_eq]
    have h1 : paddr / 2 ^ 21 < 2 ^ 35 :=
      Nat.div_lt_of_lt_mul (lt_of_lt_of_le hp (by norm_num))
    calc paddr / 2 ^ 21 * 2 ^ 19 < 2 ^ 35 * 2 ^ 19 :=
          (Nat.mul_lt_mul_right (by norm_num)).mpr h1
      _ ≤ 2 ^ 64 := by norm_num
  have hb12 : (paddr >>> 12) <<< 10 < 2 ^ 64 := by
    rw [Nat.shiftRight_eq_div_pow, Nat.shiftLeft_eq]
    have h1 : paddr / 2 ^ 12 < 2 ^ 44 :=
      Nat.div_lt_of_lt_mul (lt_of_lt_of_le hp (by norm_num))
    calc paddr / 2 ^ 12 * 2 ^ 10 < 2 ^ 44 * 2 ^ 10 :=
          (Nat.mul_lt_mul_right (by norm_num)).mpr h1
      _ ≤ 2 ^ 64 := by norm_num
  rw [leafEntry, Nat.mod_eq_of_lt hb30, Nat.mod_eq_of_lt hb21, Nat.mod_eq_of_lt hb12]
  apply Nat.eq_of_testBit_eq
  intro i
  simp only [Nat.testBit_lor, Nat.testBit_shiftLeft, Nat.testBit_shiftRight]
  by_cases h28 : 28 ≤ i
  · rw [show 30 + (i - 28) = 12 + (i - 10) by omega,
      show 21 + (i - 19) = 12 + (i - 10) by omega]
    simp [h28, show 19 ≤ i by omega, show 10 ≤ i by omega]
  · by_cases h19 : 19 ≤ i
    · rw [show 21 + (i - 19) = 12 + (i - 10) by omega]
      simp [h28, h19, show 10 ≤ i by omega]
    · by_cases h10 : 10 ≤ i
      · simp [h28, h19, h10]
      · simp [h28, h19, h10]

/-- Witness for C7 at `paddr = 0x1000`, `bits = READ|WRITE`. -/
theorem C7_leaf_entry_packs_ppn_witness :
    leafEntry 0x1000 6 = ((0x1000 >>> 12) <<< 10) ||| 6 ||| 1 :=
  C7_leaf_entry_packs_ppn 0x1000 6 (by decide) (by decide)
